import Mathlib

/-!
Verification of the FMG-to-Obsidian converter (`fmg_to_obsidian_Version3.py`).

This file gives a shallow embedding, in Lean, of the pure decision logic of the
converter: the `safe_filename` identifier sanitiser, the `_get_list_item`
defensive accessor, the `integrate_mfcg_assets` external-asset matcher (over an
explicit model of the directory tree it scans and the copy operations it
performs), the `get_emblem_for` emblem resolver, and the per-kind entity
transformers (`process_burgs`, `process_rivers`, `process_cells`) at the level
of the note records they emit.  Machine-level effects (actual disk writes,
network transfers, logging) are modelled as explicit data: a run returns the
list of vault-relative paths the source code would return together with a log
of the directories it creates and the files it writes.  Strings are Lean
strings; all string manipulation is implemented by structural recursion over
the character list so that every definition evaluates on concrete inputs.
-/

namespace FmgObsidian

/-! ## Basic string helpers (models of the Python primitives used) -/

/-- Membership of `needle` in `hay` as a contiguous substring, the model of
Python's `needle in hay` on strings.  An empty needle is in every string,
as in Python. -/
def hasInfix (needle : List Char) : List Char → Bool
  | [] => needle.isEmpty
  | c :: t => needle.isPrefixOf (c :: t) || hasInfix needle t

/-- Python `needle in hay` for strings. -/
def strContains (hay needle : String) : Bool :=
  hasInfix needle.data hay.data

/-- ASCII lower-casing of one character, the model of Python `str.lower` on the
ASCII range (every concrete name in the repository's data is ASCII). -/
def charLower (c : Char) : Char :=
  if 65 ≤ c.toNat ∧ c.toNat ≤ 90 then Char.ofNat (c.toNat + 32) else c

/-- Python `s.lower()`. -/
def strLower (s : String) : String :=
  String.mk (s.data.map charLower)

/-! ## Identity & Naming: `safe_filename` (source lines 67-79)

    def safe_filename(name, fallback="unnamed"):
        if not name: return fallback
        s = str(name)
        s = re.sub(r"\s+", "_", s)
        s = re.sub(r"[^A-Za-z0-9._-]", "_", s)
        s = s.strip("_-")
        return s or fallback
-/

/-- The allow-list `[A-Za-z0-9._-]` of the second regex, decided on the code
point: `A`-`Z` (65-90), `a`-`z` (97-122), `0`-`9` (48-57), `.` (46),
`_` (95), `-` (45). -/
def allowedChar (c : Char) : Bool :=
  (65 ≤ c.toNat && c.toNat ≤ 90) || (97 ≤ c.toNat && c.toNat ≤ 122) ||
  (48 ≤ c.toNat && c.toNat ≤ 57) || c.toNat = 46 || c.toNat = 95 || c.toNat = 45

/-- The character class `\s` of the first regex: ASCII whitespace plus the
Unicode whitespace code points recognised by Python's `re` on `str`. -/
def pyIsSpace (c : Char) : Bool :=
  c.toNat = 32 || c.toNat = 9 || c.toNat = 10 || c.toNat = 13 ||
  c.toNat = 11 || c.toNat = 12 || (28 ≤ c.toNat && c.toNat ≤ 31) ||
  c.toNat = 133 || c.toNat = 160 || c.toNat = 5760 ||
  (8192 ≤ c.toNat && c.toNat ≤ 8202) || c.toNat = 8232 || c.toNat = 8233 ||
  c.toNat = 8239 || c.toNat = 8287 || c.toNat = 12288

/-- One step of `re.sub(r"\s+", "_", s)`: the flag records whether the
previous character was whitespace, so that a whole run is replaced by a
single underscore. -/
def collapseWsAux : Bool → List Char → List Char
  | _, [] => []
  | prevWs, c :: t =>
    if pyIsSpace c then
      if prevWs then collapseWsAux true t else '_' :: collapseWsAux true t
    else c :: collapseWsAux false t

/-- `re.sub(r"\s+", "_", s)`. -/
def collapseWs (l : List Char) : List Char :=
  collapseWsAux false l

/-- `re.sub(r"[^A-Za-z0-9._-]", "_", s)` applied to one character. -/
def replChar (c : Char) : Char :=
  if allowedChar c then c else '_'

/-- A character removed from both ends by `s.strip("_-")`. -/
def isStripChar (c : Char) : Bool :=
  c.toNat = 95 || c.toNat = 45

/-- Python `s.strip("_-")`: drop `_` and `-` from both ends. -/
def stripEnds (l : List Char) : List Char :=
  ((l.dropWhile isStripChar).reverse.dropWhile isStripChar).reverse

/-- `safe_filename` of the source: empty input gives the fallback, otherwise
whitespace runs collapse to `_`, characters outside the allow-list become `_`,
leading/trailing `_`/`-` are stripped, and an empty result gives the
fallback. -/
def safe_filename (name : String) (fallback : String := "unnamed") : String :=
  if name = "" then fallback
  else
    let s1 := collapseWs name.data
    let s2 := s1.map replChar
    let s3 := stripEnds s2
    if s3 = [] then fallback else String.mk s3

/-! ### Lemmas about the sanitiser -/

theorem allowed_not_space {c : Char} (h : allowedChar c = true) : pyIsSpace c = false := by
  simp only [allowedChar, Bool.or_eq_true, Bool.and_eq_true, decide_eq_true_eq] at h
  simp only [pyIsSpace, Bool.or_eq_false_iff, Bool.and_eq_false_iff, decide_eq_false_iff_not,
    Bool.and_eq_true, decide_eq_true_eq]
  omega

theorem replChar_allowed (c : Char) : allowedChar (replChar c) = true := by
  unfold replChar
  split
  · assumption
  · decide

theorem collapseWsAux_of_no_space {l : List Char} (h : ∀ c ∈ l, pyIsSpace c = false) :
    ∀ b, collapseWsAux b l = l := by
  induction l with
  | nil => intro b; rfl
  | cons c t ih =>
    intro b
    have hc : pyIsSpace c = false := h c (List.mem_cons_self c t)
    have ht : ∀ x ∈ t, pyIsSpace x = false := fun x hx => h x (List.mem_cons_of_mem c hx)
    simp [collapseWsAux, hc, ih ht]

theorem map_replChar_of_allowed {l : List Char} (h : ∀ c ∈ l, allowedChar c = true) :
    l.map replChar = l := by
  induction l with
  | nil => rfl
  | cons c t ih =>
    have hc : allowedChar c = true := h c (List.mem_cons_self c t)
    have ht := ih fun x hx => h x (List.mem_cons_of_mem c hx)
    simp [replChar, hc, ht]

theorem dropWhile_head_false {α : Type} {p : α → Bool} {l : List α} {c : α} {t : List α}
    (h : l.dropWhile p = c :: t) : p c = false := by
  induction l with
  | nil => simp at h
  | cons a r ih =>
    by_cases ha : p a
    · rw [List.dropWhile_cons_of_pos ha] at h
      exact ih h
    · rw [List.dropWhile_cons_of_neg ha] at h
      cases h
      exact Bool.of_not_eq_true ha

theorem dropWhile_idem {α : Type} (p : α → Bool) (l : List α) :
    (l.dropWhile p).dropWhile p = l.dropWhile p := by
  cases h : l.dropWhile p with
  | nil => rfl
  | cons c t =>
    have hc := dropWhile_head_false h
    simp [List.dropWhile_cons, hc]

theorem getLast?_dropWhile {α : Type} {p : α → Bool} {l : List α}
    (h : l.dropWhile p ≠ []) : (l.dropWhile p).getLast? = l.getLast? := by
  induction l with
  | nil => simp at h
  | cons a r ih =>
    by_cases ha : p a
    · rw [List.dropWhile_cons_of_pos ha] at h ⊢
      have hr : r ≠ [] := by
        intro he
        exact h (by simp [he])
      rw [ih h]
      cases r with
      | nil => exact absurd rfl hr
      | cons b s => simp [List.getLast?_cons_cons]
    · rw [List.dropWhile_cons_of_neg ha]

theorem mem_dropWhile {α : Type} {p : α → Bool} {l : List α} {a : α}
    (h : a ∈ l.dropWhile p) : a ∈ l :=
  (List.dropWhile_suffix p).subset h

theorem mem_stripEnds {l : List Char} {a : Char} (h : a ∈ stripEnds l) : a ∈ l := by
  unfold stripEnds at h
  rw [List.mem_reverse] at h
  have h2 := mem_dropWhile h
  rw [List.mem_reverse] at h2
  exact mem_dropWhile h2

theorem stripEnds_head_false {l : List Char} {c : Char} {t : List Char}
    (h : stripEnds l = c :: t) : isStripChar c = false := by
  unfold stripEnds at h
  set A := l.dropWhile isStripChar with hA
  have hne : A.reverse.dropWhile isStripChar ≠ [] := by
    intro he
    rw [he] at h
    simp at h
  have h1 : (A.reverse.dropWhile isStripChar).getLast? = A.reverse.getLast? :=
    getLast?_dropWhile hne
  have h2 : A.reverse.getLast? = A.head? := by
    have := List.head?_reverse A.reverse
    rw [List.reverse_reverse] at this
    exact this.symm
  -- the head of the stripped list is the last element of the inner dropWhile
  have h3 : (A.reverse.dropWhile isStripChar).getLast? = some c := by
    have : (A.reverse.dropWhile isStripChar).reverse.head? = some c := by
      rw [h]; rfl
    rw [List.head?_reverse] at this
    exact this
  have h4 : A.head? = some c := by rw [← h2, ← h1, h3]
  cases hAh : A with
  | nil => rw [hAh] at h4; simp at h4
  | cons d s =>
    rw [hAh] at h4
    simp at h4
    subst h4
    exact dropWhile_head_false hAh.symm.symm ▸ dropWhile_head_false (hA ▸ hAh)

theorem stripEnds_idem (l : List Char) : stripEnds (stripEnds l) = stripEnds l := by
  set t := stripEnds l with ht
  have hrev : t.reverse.dropWhile isStripChar = t.reverse := by
    have : t.reverse = (l.dropWhile isStripChar).reverse.dropWhile isStripChar := by
      rw [ht]; unfold stripEnds; rw [List.reverse_reverse]
    rw [this]
    exact dropWhile_idem _ _
  have hfwd : t.dropWhile isStripChar = t := by
    cases hc : t with
    | nil => rfl
    | cons c s =>
      have := stripEnds_head_false (ht.symm.trans hc)
      rw [List.dropWhile_cons_of_neg (by simp [this])]
  unfold stripEnds
  rw [hfwd, hrev, List.reverse_reverse]

theorem string_mk_ne_empty {l : List Char} (h : l ≠ []) : String.mk l ≠ "" := by
  intro he
  exact h (congrArg String.data he)

/-- C5.  `safe_filename` is total and idempotent: for every input string and
every non-empty fallback the result is non-empty and either consists only of
allow-listed characters or is the fallback, and applying `safe_filename`
(with its default fallback, as the spec writes `safe_name(safe_name(x))`)
twice equals applying it once. -/
theorem safe_filename_total_and_idempotent (s fb : String) (hfb : fb ≠ "") :
    (safe_filename s fb ≠ "" ∧
      ((∀ c ∈ (safe_filename s fb).data, allowedChar c = true) ∨ safe_filename s fb = fb)) ∧
    safe_filename (safe_filename s) = safe_filename s := by
  have hchars : ∀ (x : String), ∀ c ∈ stripEnds ((collapseWs x.data).map replChar),
      allowedChar c = true := by
    intro x c hc
    have h1 := mem_stripEnds hc
    rcases List.mem_map.1 h1 with ⟨d, _, hd⟩
    rw [← hd]
    exact replChar_allowed d
  constructor
  · unfold safe_filename
    by_cases hs : s = ""
    · simp [hs, hfb]
    · simp only [hs, if_false]
      by_cases h3 : stripEnds ((collapseWs s.data).map replChar) = []
      · simp [h3, hfb]
      · simp only [h3, if_false]
        refine ⟨string_mk_ne_empty h3, Or.inl ?_⟩
        intro c hc
        exact hchars s c hc
  · by_cases hs : s = ""
    · subst hs
      decide
    · show safe_filename (safe_filename s "unnamed") "unnamed" = safe_filename s "unnamed"
      by_cases h3 : stripEnds ((collapseWs s.data).map replChar) = []
      · have hr : safe_filename s "unnamed" = "unnamed" := by
          unfold safe_filename
          simp [hs, h3]
        rw [hr]
        decide
      · set t := stripEnds ((collapseWs s.data).map replChar) with htdef
        have hr : safe_filename s "unnamed" = String.mk t := by
          unfold safe_filename
          simp [hs, h3]
        rw [hr]
        have hall : ∀ c ∈ t, allowedChar c = true := fun c hc => hchars s c hc
        have hnosp : ∀ c ∈ t, pyIsSpace c = false := fun c hc => allowed_not_space (hall c hc)
        have hcol : collapseWs t = t := collapseWsAux_of_no_space hnosp false
        have hmap : t.map replChar = t := map_replChar_of_allowed hall
        have hstr : stripEnds t = t := by rw [htdef]; exact stripEnds_idem _
        unfold safe_filename
        rw [if_neg (string_mk_ne_empty h3)]
        show (if stripEnds ((collapseWs (String.mk t).data).map replChar) = [] then "unnamed"
          else String.mk (stripEnds ((collapseWs (String.mk t).data).map replChar))) = String.mk t
        have hdata : (String.mk t).data = t := rfl
        rw [hdata, hcol, hmap, hstr, if_neg h3]

/-- Witness for C5 at concrete inputs. -/
theorem safe_filename_total_and_idempotent_witness :
    ("x" : String) ≠ "" ∧
    ((safe_filename "  héllo  world!! " "x" ≠ "" ∧
      ((∀ c ∈ (safe_filename "  héllo  world!! " "x").data, allowedChar c = true) ∨
        safe_filename "  héllo  world!! " "x" = "x")) ∧
     safe_filename (safe_filename "  héllo  world!! ") = safe_filename "  héllo  world!! ") :=
  ⟨by decide, safe_filename_total_and_idempotent "  héllo  world!! " "x" (by decide)⟩

/-! ## Field Extraction: `_get_list_item` (source lines 82-92) and `_safe_cast`

    def _get_list_item(lst, idx, default=None):
        try:
            if isinstance(lst, dict):
                return lst.get(idx, default)
            if lst is None:
                return default
            return lst[idx] if 0 <= idx < len(lst) else default
        except Exception:
            return default
-/

/-- A Python dictionary key as used by the world document: either an integer
(cell ids indexing `routes`) or a string (column names of the cell table). -/
inductive PyKey where
  | int (n : Int)
  | str (s : String)
deriving DecidableEq

/-- A loosely-typed Python value of the world document: `None`, booleans,
integers, floats (the document only stores and converts them, never computes
with them, so exact rationals model every value that occurs), strings, lists
and dictionaries. -/
inductive PyVal where
  | none
  | bool (b : Bool)
  | int (n : Int)
  | float (q : Rat)
  | str (s : String)
  | list (xs : List PyVal)
  | dict (kvs : List (PyKey × PyVal))

/-- Dictionary lookup `d.get(k, default)`: the value at the first matching
key (keys are unique in a Python dict), or the default. -/
def pyDictGet (kvs : List (PyKey × PyVal)) (k : PyKey) (default : PyVal) : PyVal :=
  match kvs.find? (fun kv => kv.1 == k) with
  | some kv => kv.2
  | Option.none => default

/-- `_get_list_item` of the source.  The branches follow the source order:
dictionaries use `get`, `None` gives the default, ordered sequences (lists
and strings) give the element under the `0 <= idx < len` guard, and any other
container makes `len` raise, which the `except` clause turns into the
default. -/
def _get_list_item (lst : PyVal) (idx : Int) (default : PyVal := PyVal.none) : PyVal :=
  match lst with
  | .dict kvs => pyDictGet kvs (.int idx) default
  | .none => default
  | .list xs =>
    if h : 0 ≤ idx ∧ idx < xs.length then xs.get ⟨idx.toNat, by omega⟩ else default
  | .str s =>
    if h : 0 ≤ idx ∧ idx < s.data.length then .str (String.mk [s.data.get ⟨idx.toNat, by omega⟩])
    else default
  | _ => default

/-- Modelled from the spec's wording for `get_indexed` (spec 4.2): "For a
sequence, returns `container[index]` if `0 <= index < length`, else `default`.
For a mapping, returns `container.get(index, default)`. For absent/wrong-type
container, returns `default`."  Sequences are lists and strings; `None` is
absent; numbers and booleans are wrong-typed containers. -/
def get_indexed_spec (container : PyVal) (index : Int) (default : PyVal) : PyVal :=
  match container with
  | .list xs =>
    if h : 0 ≤ index ∧ index < xs.length then xs.get ⟨index.toNat, by omega⟩ else default
  | .str s =>
    if h : 0 ≤ index ∧ index < s.data.length then
      .str (String.mk [s.data.get ⟨index.toNat, by omega⟩])
    else default
  | .dict kvs => pyDictGet kvs (.int index) default
  | .none => default
  | .bool _ => default
  | .int _ => default
  | .float _ => default

/-- C6.  `_get_list_item` satisfies the `get_indexed` contract on every
container and every integer index: it is a total Lean function (hence never
raises) and agrees with the spec's case analysis everywhere. -/
theorem get_list_item_meets_contract (container : PyVal) (index : Int) (default : PyVal) :
    _get_list_item container index default = get_indexed_spec container index default := by
  cases container <;> rfl

/-! ### `_safe_cast` (source lines 95-99) with the `int` and `float` casters

    def _safe_cast(val, caster, default=None):
        try: return caster(val)
        except Exception: return default

The two casters used by the transformers are `int` and `float`.  `int(x)`
succeeds on booleans, integers, floats (truncating toward zero) and integer
strings; `float(x)` additionally succeeds on decimal strings.  Strings with
other content, `None`, lists and dictionaries raise, which `_safe_cast`
turns into the default. -/

/-- Integer parse of a character list: optional sign then one or more
digits (the grammar accepted by Python `int` on the strings the document
can contain; whitespace is trimmed by the caller). -/
def parseDigits : List Char → Option Nat
  | [] => Option.none
  | [c] => if 48 ≤ c.toNat ∧ c.toNat ≤ 57 then some (c.toNat - 48) else Option.none
  | c :: t =>
    if 48 ≤ c.toNat ∧ c.toNat ≤ 57 then
      match parseDigits t with
      | some n => some ((c.toNat - 48) * 10 ^ t.length + n)
      | Option.none => Option.none
    else Option.none

/-- Python `int(s)` on a string. -/
def pyIntOfStr (s : String) : Option Int :=
  match s.data with
  | '-' :: t => (parseDigits t).map (fun n => -(n : Int))
  | '+' :: t => (parseDigits t).map (fun n => (n : Int))
  | t => (parseDigits t).map (fun n => (n : Int))

/-- `_safe_cast(v, int, default)` as the optional result of `int(v)`. -/
def pyIntCast : PyVal → Option Int
  | .int n => some n
  | .bool b => some (if b then 1 else 0)
  | .float q => some (q.num.tdiv q.den)
  | .str s => pyIntOfStr s
  | _ => Option.none

/-- `_safe_cast(v, float, default)` as the optional result of `float(v)`;
decimal strings `d+.d*` with optional sign are the string forms the world
document can contain. -/
def pyFloatCast : PyVal → Option Rat
  | .int n => some n
  | .bool b => some (if b then 1 else 0)
  | .float q => some q
  | .str s =>
    let core : List Char → Option Rat := fun l =>
      match l.splitOn '.' with
      | [w] => (parseDigits w).map (fun n => (n : Rat))
      | [w, f] =>
        match parseDigits w, parseDigits f with
        | some n, some m => some ((n : Rat) + (m : Rat) / ((10 : Rat) ^ f.length))
        | _, _ => Option.none
      | _ => Option.none
    match s.data with
    | '-' :: t => (core t).map (fun q => -q)
    | '+' :: t => core t
    | t => core t
  | _ => Option.none

/-- `_safe_cast` with the `int` caster and an integer default. -/
def safeCastInt (v : PyVal) (default : Int) : Int :=
  (pyIntCast v).getD default

/-- `_safe_cast` with the `float` caster and a rational default. -/
def safeCastFloat (v : PyVal) (default : Rat) : Rat :=
  (pyFloatCast v).getD default

/-! ## External Asset Matcher: `integrate_mfcg_assets` (source lines 192-271)

The matcher scans the top-level entries of `mfcg_root` and copies matching
directories (whole subtree, via `copytree` then `os.walk`) and matching
root-level files into `outdir/Burgs/Burg-<id>-<safe_name>/mfcg`.  The
directory tree is modelled explicitly: a file system maps an absolute root
path to its list of named top-level entries (`os.listdir` order is the list
order; names are single path components).  A run returns the list of
vault-relative paths the source returns, together with the directories it
creates and the files it writes (destination path with the `outdir` prefix,
paired with the copied content).  The model runs against an initially empty
vault, so the `copytree` destination never pre-exists and copies succeed;
`os.path.abspath` is the identity on the model's path strings. -/

/-- A top-level entry of the scanned source root: a plain file with its
content, or a directory.  The directory's subtree is modelled by its
`os.walk` enumeration — the descendant files as (relative path, content)
pairs in walk order — since the source code only ever consumes that
enumeration (the recursive listing itself is performed by the OS
collaborators `shutil.copytree` and `os.walk`). -/
inductive FsEntry where
  | file (content : String)
  | dir (sub : List (String × String))
deriving DecidableEq

/-- A file system for the matcher: candidate root paths with their top-level
entries (`os.listdir` order is the list order; names are single path
components). -/
def FileSys := List (String × List (String × FsEntry))

/-- Look up the entry list of a root path (`os.path.exists` and `os.listdir`
combined): `none` models a missing root. -/
def lookupFs (fs : FileSys) (p : String) : Option (List (String × FsEntry)) :=
  match fs with
  | [] => Option.none
  | e :: rest => if e.1 = p then some e.2 else lookupFs rest p

/-- The directory-candidate test of source lines 214-216: the lowercase entry
name equals `burg-<id>`, the decimal id, or the lowercase safe name, or
contains `burg-<id>` or the lowercase safe name as a substring.  The bare
decimal id is tested only for equality here. -/
def dirEntryMatches (burg_id : Nat) (sname : String) (entry : String) : Bool :=
  let el := strLower entry
  (el = "burg-" ++ toString burg_id || el = toString burg_id || el = strLower sname) ||
  strContains el ("burg-" ++ toString burg_id) || strContains el (strLower sname)

/-- The root-file test of source line 257: the lowercase entry name contains
`burg-<id>`, the decimal id, or the lowercase safe name as a substring. -/
def fileEntryMatches (burg_id : Nat) (sname : String) (entry : String) : Bool :=
  let el := strLower entry
  strContains el ("burg-" ++ toString burg_id) || strContains el (toString burg_id) ||
  strContains el (strLower sname)

/-- The candidate list built by the first `os.listdir` loop. -/
def mfcgCandidates (burg_id : Nat) (sname : String)
    (children : List (String × FsEntry)) : List (String × FsEntry) :=
  children.filter (fun c => dirEntryMatches burg_id sname c.1)

/-- The per-burg vault folder name `Burg-<id>-<safe_name>`. -/
def mfcgDestFolder (burg_id : Nat) (sname : String) : String :=
  "Burg-" ++ toString burg_id ++ "-" ++ sname

/-- The vault-relative asset folder `Burgs/Burg-<id>-<safe_name>/mfcg`. -/
def mfcgDestBase (burg_id : Nat) (sname : String) : String :=
  "Burgs/" ++ mfcgDestFolder burg_id sname ++ "/mfcg"

/-- Vault-relative (path, content) pairs produced by one candidate directory:
`copytree` into `dest_base/<entry>` followed by `os.walk` of the copy.  A
candidate that is a file contributes nothing in this pass (`os.path.isdir`
fails). -/
def mfcgDirPart (destBase : String) (c : String × FsEntry) : List (String × String) :=
  match c.2 with
  | .dir sub => sub.map (fun p => (destBase ++ "/" ++ c.1 ++ "/" ++ p.1, p.2))
  | .file _ => []

/-- Vault-relative (path, content) pairs of the root-level file pass (source
lines 255-266): every top-level entry that is a file and passes
`fileEntryMatches` is copied into `dest_base`. -/
def mfcgFilePass (burg_id : Nat) (sname : String) (destBase : String)
    (children : List (String × FsEntry)) : List (String × String) :=
  children.filterMap (fun c =>
    match c.2 with
    | .file content =>
      if fileEntryMatches burg_id sname c.1 then some (destBase ++ "/" ++ c.1, content)
      else Option.none
    | .dir _ => Option.none)

/-- The observable outcome of one `integrate_mfcg_assets` call: the returned
list of vault-relative paths, the directories created and the files written
(with content). -/
structure MfcgRun where
  copied : List String
  createdDirs : List String
  writtenFiles : List (String × String)
deriving DecidableEq

/-- `integrate_mfcg_assets` of the source.  A falsy (`""`) or missing root
returns the empty run at once.  Otherwise the destination base directory is
created, and for each candidate entry the directory subtree copy and then the
root-level file pass (which is nested inside the candidate loop in the
source) contribute their paths in order. -/
def integrate_mfcg_assets (burg_id : Nat) (burg_name : String) (mfcg_root : String)
    (fs : FileSys) (outdir : String) : MfcgRun :=
  if mfcg_root = "" then ⟨[], [], []⟩
  else
    match lookupFs fs mfcg_root with
    | Option.none => ⟨[], [], []⟩
    | some children =>
      let sname := safe_filename burg_name
      let destBase := mfcgDestBase burg_id sname
      let cands := mfcgCandidates burg_id sname children
      let fp := mfcgFilePass burg_id sname destBase children
      { copied := cands.flatMap (fun c => (mfcgDirPart destBase c).map Prod.fst ++ fp.map Prod.fst)
        createdDirs := [outdir ++ "/" ++ destBase]
        writtenFiles := cands.flatMap (fun c =>
          ((mfcgDirPart destBase c) ++ fp).map (fun q => (outdir ++ "/" ++ q.1, q.2))) }

/-! ### Lemmas and claims about the matcher -/

theorem string_data_eq {s t : String} (h : s.data = t.data) : s = t := by
  cases s
  cases t
  exact congrArg String.mk h

theorem string_append_left_cancel {a b c : String} (h : a ++ b = a ++ c) : b = c := by
  have hd : a.data ++ b.data = a.data ++ c.data := by
    rw [← String.data_append, ← String.data_append, h]
  exact string_data_eq (List.append_cancel_left hd)

theorem count_flatMap {α β : Type} [DecidableEq β] (l : List α) (f : α → List β) (b : β) :
    (l.flatMap f).count b = (l.map fun a => (f a).count b).sum := by
  induction l with
  | nil => rfl
  | cons h t ih => simp [List.flatMap_cons, List.count_append, ih]

theorem sum_map_ones {α : Type} {l : List α} {g : α → Nat} (h : ∀ a ∈ l, g a = 1) :
    (l.map g).sum = l.length := by
  induction l with
  | nil => rfl
  | cons c t ih =>
    have hc := h c (List.mem_cons_self c t)
    have ht := ih fun a ha => h a (List.mem_cons_of_mem c ha)
    simp [hc, ht]
    omega

/-- C8.  If the source root is absent (the empty, falsy string) or does not
exist in the file system, `integrate_mfcg_assets` returns the empty list at
once: nothing is copied, no file is written and no destination directory is
created. -/
theorem integrate_mfcg_missing_root (burg_id : Nat) (burg_name mfcg_root outdir : String)
    (fs : FileSys) (h : mfcg_root = "" ∨ lookupFs fs mfcg_root = Option.none) :
    integrate_mfcg_assets burg_id burg_name mfcg_root fs outdir = ⟨[], [], []⟩ := by
  unfold integrate_mfcg_assets
  rcases h with h | h
  · simp [h]
  · by_cases hr : mfcg_root = ""
    · simp [hr]
    · simp [hr, h]

/-- Witness for C8 at a concrete missing root. -/
theorem integrate_mfcg_missing_root_witness :
    (("no_exist_root" : String) = "" ∨ lookupFs [] "no_exist_root" = Option.none) ∧
    integrate_mfcg_assets 99 "Nope" "no_exist_root" [] "vault" = ⟨[], [], []⟩ :=
  ⟨Or.inr rfl, integrate_mfcg_missing_root 99 "Nope" "no_exist_root" "vault" [] (Or.inr rfl)⟩

/-- The source root of the substring-mode example: a directory
`Burg-2-Testburg` containing `index.html`. -/
def fsTestburg : FileSys :=
  [("mroot", [("Burg-2-Testburg", FsEntry.dir [("index.html", "<html>test</html>")])])]

/-- C4.  In substring mode, settlement id 2 named `Testburg` with source
directory `Burg-2-Testburg/index.html` copies `index.html` to the vault path
`Burgs/Burg-2-Testburg/mfcg/Burg-2-Testburg/index.html` and returns a
non-empty list of vault-relative paths. -/
theorem integrate_mfcg_substring_testburg :
    (integrate_mfcg_assets 2 "Testburg" "mroot" fsTestburg "World").copied =
      ["Burgs/Burg-2-Testburg/mfcg/Burg-2-Testburg/index.html"] ∧
    ("World/Burgs/Burg-2-Testburg/mfcg/Burg-2-Testburg/index.html", "<html>test</html>") ∈
      (integrate_mfcg_assets 2 "Testburg" "mroot" fsTestburg "World").writtenFiles ∧
    (integrate_mfcg_assets 2 "Testburg" "mroot" fsTestburg "World").copied ≠ [] := by
  decide

/-- The source root of the decimal-id counterexample: one directory `x5y`
holding one file; `x5y` contains the decimal id `5` but none of the tokens
the directory pass tests by substring. -/
def fsX5y : FileSys :=
  [("mroot", [("x5y", FsEntry.dir [("f.txt", "data")])])]

/-- Counterexample to C2 as stated: for id 5 named `Qq`, the top-level
directory `x5y` contains the decimal id `5` in its lowercase name, yet it is
not a candidate and the run copies nothing (only the destination base
directory is created). -/
theorem decimal_id_substring_not_candidate :
    strContains (strLower "x5y") (toString (5 : Nat)) = true ∧
    dirEntryMatches 5 (safe_filename "Qq") "x5y" = false ∧
    integrate_mfcg_assets 5 "Qq" "mroot" fsX5y "World" =
      ⟨[], ["World/Burgs/Burg-5-Qq/mfcg"], []⟩ := by
  decide

/-- C2 as amended.  In substring mode a top-level entry becomes a candidate
exactly when its lowercase name equals one of the three tokens or contains
`burg-<id>` or the lowercase safe-name as a substring — and every directory
entry satisfying one of those substring conditions (or equal to the decimal
id) has its whole subtree copied by `integrate_mfcg_assets`; the bare
decimal id is tested as a substring only by the root-level file pass, and
when no entry is a candidate nothing is copied at all. -/
theorem substring_mode_candidate_tokens (burg_id : Nat)
    (burg_name mfcg_root outdir : String) (fs : FileSys)
    (children : List (String × FsEntry))
    (hroot : mfcg_root ≠ "")
    (hfind : lookupFs fs mfcg_root = some children) :
    (∀ e sub, (e, FsEntry.dir sub) ∈ children →
      (strContains (strLower e) ("burg-" ++ toString burg_id) = true ∨
       strContains (strLower e) (strLower (safe_filename burg_name)) = true ∨
       strLower e = toString burg_id) →
      ∀ q ∈ sub,
        (mfcgDestBase burg_id (safe_filename burg_name) ++ "/" ++ e ++ "/" ++ q.1)
          ∈ (integrate_mfcg_assets burg_id burg_name mfcg_root fs outdir).copied) ∧
    (∀ e, dirEntryMatches burg_id (safe_filename burg_name) e = true ↔
      (strLower e = "burg-" ++ toString burg_id ∨
       strLower e = toString burg_id ∨
       strLower e = strLower (safe_filename burg_name) ∨
       strContains (strLower e) ("burg-" ++ toString burg_id) = true ∨
       strContains (strLower e) (strLower (safe_filename burg_name)) = true)) ∧
    (∀ e, fileEntryMatches burg_id (safe_filename burg_name) e = true ↔
      (strContains (strLower e) ("burg-" ++ toString burg_id) = true ∨
       strContains (strLower e) (toString burg_id) = true ∨
       strContains (strLower e) (strLower (safe_filename burg_name)) = true)) ∧
    (mfcgCandidates burg_id (safe_filename burg_name) children = [] →
      (integrate_mfcg_assets burg_id burg_name mfcg_root fs outdir).copied = []) := by
  have hrun : integrate_mfcg_assets burg_id burg_name mfcg_root fs outdir =
      { copied := (mfcgCandidates burg_id (safe_filename burg_name) children).flatMap
          (fun c => (mfcgDirPart (mfcgDestBase burg_id (safe_filename burg_name)) c).map Prod.fst
            ++ (mfcgFilePass burg_id (safe_filename burg_name)
                  (mfcgDestBase burg_id (safe_filename burg_name)) children).map Prod.fst)
        createdDirs := [outdir ++ "/" ++ mfcgDestBase burg_id (safe_filename burg_name)]
        writtenFiles := (mfcgCandidates burg_id (safe_filename burg_name) children).flatMap
          (fun c => ((mfcgDirPart (mfcgDestBase burg_id (safe_filename burg_name)) c)
              ++ mfcgFilePass burg_id (safe_filename burg_name)
                  (mfcgDestBase burg_id (safe_filename burg_name)) children).map
            (fun q => (outdir ++ "/" ++ q.1, q.2))) } := by
    unfold integrate_mfcg_assets
    rw [if_neg hroot, hfind]
  refine ⟨?_, ?_, ?_, ?_⟩
  · intro e sub hmem hcond q hq
    have hmatch : dirEntryMatches burg_id (safe_filename burg_name) e = true := by
      rcases hcond with h | h | h <;> simp [dirEntryMatches, h]
    have hcand : (e, FsEntry.dir sub) ∈
        mfcgCandidates burg_id (safe_filename burg_name) children :=
      List.mem_filter.2 ⟨hmem, hmatch⟩
    rw [hrun]
    apply List.mem_flatMap.2
    refine ⟨(e, FsEntry.dir sub), hcand, List.mem_append_left _ ?_⟩
    simp only [mfcgDirPart, List.map_map]
    exact List.mem_map.2 ⟨q, hq, rfl⟩
  · intro e
    simp [dirEntryMatches, Bool.or_eq_true, decide_eq_true_eq, or_assoc]
  · intro e
    simp [fileEntryMatches, Bool.or_eq_true, or_assoc]
  · intro hc
    rw [hrun]
    simp [hc]

/-- The source root of the C2 witness: a directory `Burg-9-Port` whose
lowercase name contains the `burg-9` token. -/
def fsBurg9 : FileSys :=
  [("r9", [("Burg-9-Port", FsEntry.dir [("map.png", "P")])])]

/-- Witness for C2: the `Burg-9-Port` directory matches via the `burg-9`
substring and its file is copied. -/
theorem substring_mode_candidate_tokens_witness :
    ("r9" : String) ≠ "" ∧
    lookupFs fsBurg9 "r9" = some [("Burg-9-Port", FsEntry.dir [("map.png", "P")])] ∧
    (mfcgDestBase 9 (safe_filename "Port") ++ "/" ++ "Burg-9-Port" ++ "/" ++ "map.png")
      ∈ (integrate_mfcg_assets 9 "Port" "r9" fsBurg9 "World").copied :=
  ⟨by decide, by decide,
   (substring_mode_candidate_tokens 9 "Port" "r9" "World" fsBurg9
      [("Burg-9-Port", FsEntry.dir [("map.png", "P")])] (by decide) (by decide)).1
     "Burg-9-Port" [("map.png", "P")] (by decide) (Or.inl (by decide))
     ("map.png", "P") (by decide)⟩

theorem count_mfcgFilePass_zero (burg_id : Nat) (sname destBase : String)
    (children : List (String × FsEntry)) (e : String)
    (hnot : e ∉ children.map Prod.fst) :
    ((mfcgFilePass burg_id sname destBase children).map Prod.fst).count
      (destBase ++ "/" ++ e) = 0 := by
  induction children with
  | nil => rfl
  | cons c rest ih =>
    have hne : c.1 ≠ e := fun h => hnot (by simp [h])
    have hrest : e ∉ rest.map Prod.fst := fun h => hnot (List.mem_cons_of_mem _ h)
    have hpath : destBase ++ "/" ++ c.1 ≠ destBase ++ "/" ++ e := by
      intro h
      exact hne (string_append_left_cancel h)
    have ih2 := ih hrest
    simp only [mfcgFilePass, List.filterMap_cons] at ih2 ⊢
    cases hc2 : c.2 with
    | dir sub => simpa [hc2] using ih2
    | file content =>
      by_cases hm : fileEntryMatches burg_id sname c.1
      · simp [hc2, hm, List.count_cons, ih2, hpath]
      · simp [hc2, hm, ih2]

theorem count_mfcgFilePass_one (burg_id : Nat) (sname destBase : String)
    (children : List (String × FsEntry)) (e content : String)
    (hnodup : (children.map Prod.fst).Nodup)
    (hmem : (e, FsEntry.file content) ∈ children)
    (hmatch : fileEntryMatches burg_id sname e = true) :
    ((mfcgFilePass burg_id sname destBase children).map Prod.fst).count
        (destBase ++ "/" ++ e) = 1 ∧
    (destBase ++ "/" ++ e, content) ∈ mfcgFilePass burg_id sname destBase children := by
  induction children with
  | nil => simp at hmem
  | cons c rest ih =>
    rw [List.map_cons, List.nodup_cons] at hnodup
    rcases List.mem_cons.1 hmem with heq | hmem2
    · subst heq
      have hz := count_mfcgFilePass_zero burg_id sname destBase rest e hnodup.1
      simp only [mfcgFilePass, List.filterMap_cons] at hz ⊢
      simp [hmatch, List.count_cons, hz]
    · have he : e ∈ rest.map Prod.fst := List.mem_map_of_mem Prod.fst hmem2
      have hne : c.1 ≠ e := fun h => hnodup.1 (h ▸ he)
      have hpath : destBase ++ "/" ++ c.1 ≠ destBase ++ "/" ++ e := by
        intro h
        exact hne (string_append_left_cancel h)
      have hrec := ih hnodup.2 hmem2
      simp only [mfcgFilePass, List.filterMap_cons] at hrec ⊢
      cases hc2 : c.2 with
      | dir sub => simpa [hc2] using hrec
      | file ct =>
        by_cases hm : fileEntryMatches burg_id sname c.1
        · refine ⟨?_, ?_⟩
          · simp [hc2, hm, List.count_cons, hrec.1, hpath]
          · simp only [hc2, hm, if_true]
            exact List.mem_cons_of_mem _ hrec.2
        · simpa [hc2, hm] using hrec

theorem count_mfcgDirPart_zero (destBase : String) (c : String × FsEntry) (e : String)
    (hnoslash : ('/' : Char) ∉ e.data) :
    ((mfcgDirPart destBase c).map Prod.fst).count (destBase ++ "/" ++ e) = 0 := by
  apply List.count_eq_zero.2
  intro hp
  cases hc2 : c.2 with
  | file content => simp [mfcgDirPart, hc2] at hp
  | dir sub =>
    simp only [mfcgDirPart, hc2] at hp
    rcases List.mem_map.1 hp with ⟨x, hx, hxe⟩
    rcases List.mem_map.1 hx with ⟨q, _, hq⟩
    rw [← hq] at hxe
    have hd := congrArg String.data hxe
    simp only [String.data_append, List.append_assoc] at hd
    have h1 := List.append_cancel_left hd
    have h2 := List.append_cancel_left h1
    apply hnoslash
    rw [← h2]
    simp

/-- C3.  The root-level file pass is nested inside the candidate loop: with
no matching top-level entry nothing at all is copied, and with k matching
entries every matching root-level file is written and its vault-relative
path occurs exactly k times in the returned list. -/
theorem mfcg_filepass_once_per_candidate (burg_id : Nat)
    (burg_name mfcg_root outdir : String) (fs : FileSys)
    (children : List (String × FsEntry))
    (hroot : mfcg_root ≠ "")
    (hfind : lookupFs fs mfcg_root = some children)
    (hnodup : (children.map Prod.fst).Nodup)
    (hnoslash : ∀ c ∈ children, ('/' : Char) ∉ c.1.data) :
    (mfcgCandidates burg_id (safe_filename burg_name) children = [] →
      (integrate_mfcg_assets burg_id burg_name mfcg_root fs outdir).copied = [] ∧
      (integrate_mfcg_assets burg_id burg_name mfcg_root fs outdir).writtenFiles = []) ∧
    (∀ e content, (e, FsEntry.file content) ∈ children →
      fileEntryMatches burg_id (safe_filename burg_name) e = true →
      (integrate_mfcg_assets burg_id burg_name mfcg_root fs outdir).copied.count
          (mfcgDestBase burg_id (safe_filename burg_name) ++ "/" ++ e) =
        (mfcgCandidates burg_id (safe_filename burg_name) children).length ∧
      (mfcgCandidates burg_id (safe_filename burg_name) children ≠ [] →
        (outdir ++ "/" ++ (mfcgDestBase burg_id (safe_filename burg_name) ++ "/" ++ e), content)
          ∈ (integrate_mfcg_assets burg_id burg_name mfcg_root fs outdir).writtenFiles)) := by
  have hrun : integrate_mfcg_assets burg_id burg_name mfcg_root fs outdir =
      { copied := (mfcgCandidates burg_id (safe_filename burg_name) children).flatMap
          (fun c => (mfcgDirPart (mfcgDestBase burg_id (safe_filename burg_name)) c).map Prod.fst
            ++ (mfcgFilePass burg_id (safe_filename burg_name)
                  (mfcgDestBase burg_id (safe_filename burg_name)) children).map Prod.fst)
        createdDirs := [outdir ++ "/" ++ mfcgDestBase burg_id (safe_filename burg_name)]
        writtenFiles := (mfcgCandidates burg_id (safe_filename burg_name) children).flatMap
          (fun c => ((mfcgDirPart (mfcgDestBase burg_id (safe_filename burg_name)) c)
              ++ mfcgFilePass burg_id (safe_filename burg_name)
                  (mfcgDestBase burg_id (safe_filename burg_name)) children).map
            (fun q => (outdir ++ "/" ++ q.1, q.2))) } := by
    unfold integrate_mfcg_assets
    rw [if_neg hroot, hfind]
  rw [hrun]
  constructor
  · intro hc
    simp [hc]
  · intro e content hmem hmatch
    have henoslash : ('/' : Char) ∉ e.data := hnoslash (e, FsEntry.file content) hmem
    have hfp := count_mfcgFilePass_one burg_id (safe_filename burg_name)
      (mfcgDestBase burg_id (safe_filename burg_name)) children e content hnodup hmem hmatch
    constructor
    · rw [count_flatMap]
      apply sum_map_ones
      intro c _
      rw [List.count_append, hfp.1,
        count_mfcgDirPart_zero (mfcgDestBase burg_id (safe_filename burg_name)) c e henoslash]
    · intro hne
      rcases List.exists_mem_of_ne_nil _ hne with ⟨c, hc⟩
      apply List.mem_flatMap.2
      refine ⟨c, hc, ?_⟩
      exact List.mem_map_of_mem _ (List.mem_append_right _ hfp.2)

/-- The source root of the C3 witness: three matching entries (two
directories and one root-level file, all containing `burg-7`). -/
def fsThreeCands : FileSys :=
  [("r", [("burg-7-a", FsEntry.dir [("m.txt", "1")]),
          ("burg-7-b", FsEntry.dir []),
          ("burg-7-notes.txt", FsEntry.file "n")])]

/-- Witness for C3: with three matching top-level entries, the matching
root-level file's vault-relative path occurs three times in the returned
list and the file is written. -/
theorem mfcg_filepass_once_per_candidate_witness :
    (integrate_mfcg_assets 7 "Town" "r" fsThreeCands "World").copied.count
        (mfcgDestBase 7 (safe_filename "Town") ++ "/" ++ "burg-7-notes.txt") = 3 ∧
    ("World" ++ "/" ++ (mfcgDestBase 7 (safe_filename "Town") ++ "/" ++ "burg-7-notes.txt"), "n")
      ∈ (integrate_mfcg_assets 7 "Town" "r" fsThreeCands "World").writtenFiles := by
  have h := (mfcg_filepass_once_per_candidate 7 "Town" "r" "World" fsThreeCands
      [("burg-7-a", FsEntry.dir [("m.txt", "1")]),
       ("burg-7-b", FsEntry.dir []),
       ("burg-7-notes.txt", FsEntry.file "n")]
      (by decide) (by decide) (by decide) (by decide)).2
      "burg-7-notes.txt" "n" (by decide) (by decide)
  refine ⟨?_, h.2 (by decide)⟩
  rw [h.1]
  decide

/-! ### Exact matching mode (spec-modelled)

The tests drive `integrate_mfcg_assets` through a module-level Match
Configuration (`MFCG_MATCH_MODE`, with modes substring/exact/regex/map), but
the configuration and its non-default modes are not part of the source under
`src/`; only the substring behaviour embedded above is.  The exact mode is
therefore modelled from the spec. -/

/-- Modelled from the spec: the Match Configuration's exact matching mode
(`MFCG_MATCH_MODE = 'exact'`, referenced by the tests; implementation missing
from `src/`).  Spec 4.4: in exact mode an "entry matches only if its
lowercase name is exactly equal to one of the same three tokens". -/
def exactEntryMatches (burg_id : Nat) (sname : String) (entry : String) : Bool :=
  strLower entry = "burg-" ++ toString burg_id || strLower entry = toString burg_id ||
  strLower entry = strLower sname

/-- Modelled from the spec: `integrate_mfcg_assets` under exact mode — same
preconditions and destination layout as the embedded substring mode, but the
matched set is the exact-token match and, per spec 4.4 "Processing, for every
matched entry", a matched directory's subtree is copied under
`dest_base/<entry>` and a matched file is copied into `dest_base`. -/
def integrate_mfcg_assets_exact (burg_id : Nat) (burg_name mfcg_root : String)
    (fs : FileSys) (outdir : String) : MfcgRun :=
  if mfcg_root = "" then ⟨[], [], []⟩
  else
    match lookupFs fs mfcg_root with
    | Option.none => ⟨[], [], []⟩
    | some children =>
      let sname := safe_filename burg_name
      let destBase := mfcgDestBase burg_id sname
      let matched := children.filter (fun c => exactEntryMatches burg_id sname c.1)
      let parts := matched.flatMap (fun c =>
        match c.2 with
        | FsEntry.dir sub => sub.map (fun p => (destBase ++ "/" ++ c.1 ++ "/" ++ p.1, p.2))
        | FsEntry.file content => [(destBase ++ "/" ++ c.1, content)])
      ⟨parts.map Prod.fst, [outdir ++ "/" ++ destBase],
       parts.map (fun q => (outdir ++ "/" ++ q.1, q.2))⟩

/-- The source root of the exact-mode example: directories `Burg-8-Exact`
and `Burg-8-ExactOther`, each holding one file. -/
def fsExact8 : FileSys :=
  [("mroot", [("Burg-8-Exact", FsEntry.dir [("a.txt", "x")]),
              ("Burg-8-ExactOther", FsEntry.dir [("b.txt", "y")])])]

/-- Counterexample to C1 as stated: under the spec's exact rule the lowercase
name `burg-8-exact` of `Burg-8-Exact` is not exactly equal to any of the
three tokens (`burg-8`, `8`, `exact`), so for settlement id 8 named `Exact`
the entry does not match and nothing at all is copied — in particular the
run does not copy from `Burg-8-Exact`, which the claim's example asserts it
does (as does the repository test `test_match_exact_mode`). -/
theorem exact_mode_example_copies_nothing :
    exactEntryMatches 8 (safe_filename "Exact") "Burg-8-Exact" = false ∧
    (integrate_mfcg_assets_exact 8 "Exact" "mroot" fsExact8 "World").copied = [] := by
  decide

/-- C1 as amended.  In exact mode a top-level entry matches only if its
lowercase name is exactly equal to one of the three tokens; consequently for
settlement id 8 named `Exact` with source entries `Burg-8-Exact` and
`Burg-8-ExactOther` neither entry matches, nothing is copied, and in
particular nothing is ever copied from `Burg-8-ExactOther`. -/
theorem exact_mode_matches_only_exact_tokens :
    (∀ (burg_id : Nat) (sname entry : String), exactEntryMatches burg_id sname entry = true →
      strLower entry = "burg-" ++ toString burg_id ∨ strLower entry = toString burg_id ∨
      strLower entry = strLower sname) ∧
    (integrate_mfcg_assets_exact 8 "Exact" "mroot" fsExact8 "World").copied = [] ∧
    (∀ p ∈ (integrate_mfcg_assets_exact 8 "Exact" "mroot" fsExact8 "World").copied,
      strContains p "ExactOther" = false) := by
  refine ⟨?_, by decide, by decide⟩
  intro burg_id sname entry h
  simpa [exactEntryMatches, Bool.or_eq_true, or_assoc] using h

/-- Witness for C1: the entry `burg-8` does match in exact mode and its
lowercase name equals one of the three tokens. -/
theorem exact_mode_matches_only_exact_tokens_witness :
    exactEntryMatches 8 (safe_filename "Exact") "burg-8" = true ∧
    (strLower "burg-8" = "burg-" ++ toString 8 ∨
     strLower "burg-8" = toString 8 ∨
     strLower "burg-8" = strLower (safe_filename "Exact")) :=
  ⟨by decide,
   exact_mode_matches_only_exact_tokens.1 8 (safe_filename "Exact") "burg-8" (by decide)⟩

/-! ## Asset Resolver: `get_emblem_for` (source lines 102-189)

The resolver first looks for an embedded `coa` mapping with an `svg` text
field, then for an `emblem_url` reference (URL or local path), else resolves
to the empty string.  Disk writes are modelled as succeeding (the `OSError`
soft-fail branch is outside the model's file system); downloads are modelled
as a successful streamed write whose bytes the model tags with the source
URL; `os.path.abspath` is the identity on the model's path strings; the
module-default `EMBLEM_DIR` (`World/emblems`) is used. -/

/-- The module default `EMBLEM_DIR = os.path.join(VAULT_DIR, "emblems")`. -/
def EMBLEM_DIR : String := "World/emblems"

/-- Split a character list on a separator, the model of Python `str.split`
with a one-character separator (never returns an empty list). -/
def splitOnChar (sep : Char) : List Char → List (List Char)
  | [] => [[]]
  | c :: t =>
    let r := splitOnChar sep t
    if c = sep then [] :: r
    else
      match r with
      | h :: rest => (c :: h) :: rest
      | [] => [[c]]

/-- Python `s.split(".")[-1]`: the segment after the last dot, or the whole
string when there is no dot. -/
def lastSegAfterDot (s : String) : String :=
  match (splitOnChar '.' s.data).getLast? with
  | some seg => String.mk seg
  | Option.none => s

/-- Join path segments with `/`. -/
def joinWithSlash : List (List Char) → List Char
  | [] => []
  | [x] => x
  | x :: rest => x ++ '/' :: joinWithSlash rest

/-- `os.path.basename` on the model's slash-separated paths. -/
def pyBasename (p : String) : String :=
  match (splitOnChar '/' p.data).getLast? with
  | some seg => String.mk seg
  | Option.none => p

/-- `os.path.dirname` on the model's slash-separated paths. -/
def pyDirname (p : String) : String :=
  String.mk (joinWithSlash ((splitOnChar '/' p.data).dropLast))

/-- `src_path.startswith(("http://", "https://"))`. -/
def startsWithHttp (s : String) : Bool :=
  ("http://".data.isPrefixOf s.data) || ("https://".data.isPrefixOf s.data)

/-- `save_emblem_svg` (source lines 102-111): write the vector text as
`<kind>-<id>.svg` under the emblem directory and return the vault-relative
path. -/
def save_emblem_svg (obj_type obj_id svg_data : String) : String × List (String × String) :=
  let filename := obj_type ++ "-" ++ obj_id ++ ".svg"
  ("emblems/" ++ filename, [(EMBLEM_DIR ++ "/" ++ filename, svg_data)])

/-- `save_emblem_image` (source lines 135-189): URLs download only when
enabled, a source already at (or already named as) the destination is reused
without copying, a present local file is copied, and a missing one resolves
to the empty string. -/
def save_emblem_image (src_path obj_type obj_id ext : String) (download : Bool)
    (localFiles : List String) : String × List (String × String) :=
  let filename := obj_type ++ "-" ++ obj_id ++ "." ++ ext
  let dst := EMBLEM_DIR ++ "/" ++ filename
  if startsWithHttp src_path then
    if download then ("emblems/" ++ filename, [(dst, "downloaded:" ++ src_path)])
    else ("", [])
  else
    if src_path = dst then ("emblems/" ++ filename, [])
    else if pyDirname src_path = EMBLEM_DIR ∧ pyBasename src_path = filename then
      ("emblems/" ++ filename, [])
    else if src_path ∈ localFiles then ("emblems/" ++ filename, [(dst, "copyof:" ++ src_path)])
    else ("", [])

/-- The shape of the `coa` field as `get_emblem_for` discriminates it: a
dict containing `svg`, a dict without `svg`, or a non-dict value. -/
inductive CoaField where
  | withSvg (svg : String)
  | dictNoSvg
  | nonDict
deriving DecidableEq

/-- The entity as the resolver sees it: not a dict at all, or a record with
its optional `coa` and `emblem_url` fields. -/
inductive EmblemObj where
  | nonDict
  | record (coa : Option CoaField) (emblem_url : Option String)
deriving DecidableEq

/-- Python truthiness of the optional `emblem_url` value. -/
def urlTruthy : Option String → Bool
  | some s => decide (s ≠ "")
  | Option.none => false

/-- Whether the `coa` value is a dict carrying `svg`. -/
def coaHasSvg : Option CoaField → Bool
  | some (.withSvg _) => true
  | _ => false

/-- `get_emblem_for` (source lines 114-133): embedded `coa.svg` first, then
a truthy `emblem_url` (with the extension taken after the last dot), else
the empty string. -/
def get_emblem_for (obj_type : String) (obj : EmblemObj) (obj_id : String)
    (download : Bool) (localFiles : List String) : String × List (String × String) :=
  match obj with
  | .nonDict => ("", [])
  | .record coa url =>
    match coa with
    | some (.withSvg svg) => save_emblem_svg obj_type obj_id svg
    | _ =>
      match url with
      | some u =>
        if u = "" then ("", [])
        else save_emblem_image u obj_type obj_id (lastSegAfterDot u) download localFiles
      | Option.none => ("", [])

/-- C9.  Emblem resolution is first-match-wins: an embedded `coa.svg`
payload is persisted as `<kind>-<id>.svg` and its vault-relative path
returned, whatever the `emblem_url` field holds; and an entity with neither
an embedded payload nor a truthy external reference resolves to the empty
string. -/
theorem get_emblem_first_match (kind oid svg : String) (url : Option String)
    (download : Bool) (localFiles : List String) :
    (get_emblem_for kind (.record (some (.withSvg svg)) url) oid download localFiles =
      ("emblems/" ++ (kind ++ "-" ++ oid ++ ".svg"),
       [(EMBLEM_DIR ++ "/" ++ (kind ++ "-" ++ oid ++ ".svg"), svg)])) ∧
    (∀ (coa : Option CoaField) (url2 : Option String),
      coaHasSvg coa = false → urlTruthy url2 = false →
      get_emblem_for kind (.record coa url2) oid download localFiles = ("", [])) := by
  constructor
  · rfl
  · intro coa url2 hc hu
    match coa with
    | some (.withSvg s) => simp [coaHasSvg] at hc
    | some .dictNoSvg | some .nonDict | Option.none =>
      match url2 with
      | Option.none => rfl
      | some u =>
        have hu2 : u = "" := by simpa [urlTruthy] using hu
        simp [get_emblem_for, hu2]

/-- Witness for C9: concrete resolution with both an embedded payload and an
external reference, and a concrete empty resolution. -/
theorem get_emblem_first_match_witness :
    (get_emblem_for "burg" (.record (some (.withSvg "<svg/>")) (some "http://x/e.png"))
        "3" false [] =
      ("emblems/" ++ ("burg" ++ "-" ++ "3" ++ ".svg"),
       [(EMBLEM_DIR ++ "/" ++ ("burg" ++ "-" ++ "3" ++ ".svg"), "<svg/>")])) ∧
    coaHasSvg (some CoaField.dictNoSvg) = false ∧ urlTruthy (some "") = false ∧
    get_emblem_for "burg" (.record (some CoaField.dictNoSvg) (some "")) "3" false [] =
      ("", []) :=
  ⟨(get_emblem_first_match "burg" "3" "<svg/>" (some "http://x/e.png") false []).1,
   by decide, by decide,
   (get_emblem_first_match "burg" "3" "<svg/>" (some "http://x/e.png") false []).2
     (some CoaField.dictNoSvg) (some "") (by decide) (by decide)⟩

/-! ## Entity Transformers (source lines 273-376 and 537-566)

`process_burgs` skips the sentinel element at index 0, skips non-record
elements with a warning, and emits one note per well-formed settlement;
`process_rivers` iterates the whole list (no sentinel) with the same
per-element skip; `process_cells` enumerates the heights column.  A note is
modelled as the path, metadata record and body text handed to
`write_markdown`; the runs are modelled under the module-default
configuration (`MFCG_DIR = None`, so no external-asset integration inside
`process_burgs`, and `DOWNLOAD_EMBLEMS`/the local file set passed
explicitly). -/

/-- The fields `process_burgs` reads from a record-shaped settlement entry;
`Option.none` models an absent key. -/
structure BurgRec where
  i : Option Int := Option.none
  name : Option String := Option.none
  cell : Option Int := Option.none
  culture : Option Int := Option.none
  state : Option Int := Option.none
  feature : Option Int := Option.none
  population : Option Rat := Option.none
  type : Option String := Option.none
  capital : Option Bool := Option.none
  port : Option Bool := Option.none
  citadel : Option Bool := Option.none
  plaza : Option Bool := Option.none
  temple : Option Bool := Option.none
  walls : Option Bool := Option.none
  coa : Option CoaField := Option.none
  emblem_url : Option String := Option.none
deriving DecidableEq

/-- One element of the settlement list: record-shaped, or malformed (a bare
number, say), carrying only its printed form for the warning. -/
inductive BurgEntry where
  | record (r : BurgRec)
  | bad (txt : String)
deriving DecidableEq

/-- The frontmatter dictionary `process_burgs` builds. -/
structure BurgFM where
  burg_id : Int
  name : String
  cell : Int
  culture : Int
  state : Int
  feature : Int
  population : Rat
  type : String
  capital : Bool
  port : Bool
  citadel : Bool
  plaza : Bool
  temple : Bool
  walls : Bool
  emblem_url : String
  mfcg_assets : List String
deriving DecidableEq

/-- A note handed to `write_markdown`: target path, frontmatter, body. -/
structure BurgNote where
  path : String
  fm : BurgFM
  body : String
deriving DecidableEq

/-- The note one well-formed settlement produces (source lines 328-376,
with `MFCG_DIR` unset so `mfcg_assets` stays empty). -/
def mkBurgNote (vault : String) (download : Bool) (localFiles : List String)
    (r : BurgRec) : BurgNote :=
  let oid := match r.i with
    | some n => toString n
    | Option.none => "unknown"
  let emb := (get_emblem_for "burg" (.record r.coa r.emblem_url) oid download localFiles).1
  let fm : BurgFM :=
    { burg_id := r.i.getD 0
      name := r.name.getD ""
      cell := r.cell.getD 0
      culture := r.culture.getD 0
      state := r.state.getD 0
      feature := r.feature.getD 0
      population := r.population.getD 0
      type := r.type.getD ""
      capital := r.capital.getD false
      port := r.port.getD false
      citadel := r.citadel.getD false
      plaza := r.plaza.getD false
      temple := r.temple.getD false
      walls := r.walls.getD false
      emblem_url := emb
      mfcg_assets := [] }
  let body :=
    "# Burg " ++ fm.name ++ "\n" ++
    (if emb = "" then "" else "![Emblem](" ++ emb ++ ")") ++ "\n" ++
    "Located in [[Cells/Cell-" ++ toString fm.cell ++ "]]\n" ++
    "Culture → [[Cultures/Culture-" ++ toString fm.culture ++ "]]\n" ++
    "State → [[States/State-" ++ toString fm.state ++ "]]\n" ++
    "Feature → [[Features/Feature-" ++ toString fm.feature ++ "]]"
  { path := vault ++ "/Burgs/" ++
      ("Burg-" ++ toString fm.burg_id ++ "-" ++ safe_filename fm.name ++ ".md")
    fm := fm
    body := body }

/-- The per-element step of `process_burgs`: a non-record element is logged
and skipped, a record emits its note. -/
def burgNoteOf (vault : String) (download : Bool) (localFiles : List String) :
    BurgEntry → Option BurgNote
  | .bad _ => Option.none
  | .record r => some (mkBurgNote vault download localFiles r)

/-- `process_burgs` (source lines 319-376): skip element 0, then one note
per record-shaped element, in order. -/
def process_burgs (vault : String) (download : Bool) (localFiles : List String)
    (burgs : List BurgEntry) : List BurgNote :=
  match burgs with
  | [] => []
  | _ :: rest => rest.filterMap (burgNoteOf vault download localFiles)

/-- C10.  A malformed element after the sentinel is skipped and only it:
processing with the malformed element equals processing without it, and
every well-formed settlement after the malformed one still emits its
note. -/
theorem process_burgs_skips_malformed (vault : String) (download : Bool)
    (localFiles : List String) (b0 : BurgEntry) (l1 l2 : List BurgEntry) (txt : String) :
    process_burgs vault download localFiles (b0 :: (l1 ++ BurgEntry.bad txt :: l2)) =
      process_burgs vault download localFiles (b0 :: (l1 ++ l2)) ∧
    ∀ r, BurgEntry.record r ∈ l2 →
      mkBurgNote vault download localFiles r ∈
        process_burgs vault download localFiles (b0 :: (l1 ++ BurgEntry.bad txt :: l2)) := by
  constructor
  · simp [process_burgs, List.filterMap_append, burgNoteOf]
  · intro r hr
    simp only [process_burgs]
    exact List.mem_filterMap.2 ⟨BurgEntry.record r, by simp [hr], rfl⟩

/-- A concrete well-formed settlement for the C10 witness. -/
def burgEx : BurgRec :=
  { i := some 2, name := some "Testburg", cell := some 1 }

/-- Witness for C10: with a bare-number element in the middle of the list,
the later well-formed settlement still emits its note. -/
theorem process_burgs_skips_malformed_witness :
    BurgEntry.record burgEx ∈ ([BurgEntry.record burgEx] : List BurgEntry) ∧
    mkBurgNote "World" false [] burgEx ∈
      process_burgs "World" false []
        (BurgEntry.bad "sentinel" :: ([] ++ BurgEntry.bad "7" :: [BurgEntry.record burgEx])) :=
  ⟨List.mem_cons_self _ _,
   (process_burgs_skips_malformed "World" false [] (BurgEntry.bad "sentinel")
      [] [BurgEntry.record burgEx] "7").2 burgEx (List.mem_cons_self _ _)⟩

/-- The fields `process_rivers` reads from a record-shaped river entry. -/
structure RiverRec where
  i : Option Int := Option.none
  name : Option String := Option.none
  source : Option Int := Option.none
  mouth : Option Int := Option.none
  basin : Option Int := Option.none
  cells : Option (List Int) := Option.none
  length : Option Rat := Option.none
  discharge : Option Rat := Option.none
deriving DecidableEq

/-- One element of the river list: record-shaped or malformed. -/
inductive RiverEntry where
  | record (r : RiverRec)
  | bad (txt : String)
deriving DecidableEq

/-- The frontmatter dictionary `process_rivers` builds. -/
structure RiverFM where
  river_id : Int
  name : String
  source_cell : Int
  mouth_cell : Int
  basin : Int
  cells : List Int
  length_km : Rat
  flux : Rat
deriving DecidableEq

/-- A river note handed to `write_markdown`. -/
structure RiverNote where
  path : String
  fm : RiverFM
  body : String
deriving DecidableEq

/-- The note one well-formed river produces (source lines 546-563). -/
def mkRiverNote (vault : String) (r : RiverRec) : RiverNote :=
  let fm : RiverFM :=
    { river_id := r.i.getD 0
      name := r.name.getD ""
      source_cell := r.source.getD 0
      mouth_cell := r.mouth.getD 0
      basin := r.basin.getD 0
      cells := r.cells.getD []
      length_km := r.length.getD 0
      flux := r.discharge.getD 0 }
  let body :=
    "# River " ++ fm.name ++ "\n" ++
    "Flows through → " ++ toString fm.cells ++ "\n" ++
    "Mouth → [[Cells/Cell-" ++ toString fm.mouth_cell ++ "]]"
  { path := vault ++ "/Rivers/" ++
      ("River-" ++ toString fm.river_id ++ "-" ++ safe_filename fm.name ++ ".md")
    fm := fm
    body := body }

/-- The per-element step of `process_rivers`. -/
def riverNoteOf (vault : String) : RiverEntry → Option RiverNote
  | .bad _ => Option.none
  | .record r => some (mkRiverNote vault r)

/-- `process_rivers` (source lines 537-566): every element, no sentinel
skip. -/
def process_rivers (vault : String) (rivers : List RiverEntry) : List RiverNote :=
  rivers.filterMap (riverNoteOf vault)

/-- The frontmatter dictionary `process_cells` builds (source lines
281-305). -/
structure CellFM where
  cell_id : Nat
  x : Rat
  y : Rat
  elevation : Int
  feature : Int
  biome : Int
  burg : Int
  culture : Int
  state : Int
  province : Int
  religion : Int
  population : Rat
  river : Int
  flux : Int
  harbor_score : Int
  routes : PyVal

/-- A cell note handed to `write_markdown`. -/
structure CellNote where
  path : String
  fm : CellFM
  body : String

/-- The column dictionary of the cell table: a bare list is wrapped as the
`h` column (source line 277); a cell value of any other non-dict shape makes
the source raise before any note is written, so it contributes no
columns. -/
def kvsOf (cells : PyVal) : List (PyKey × PyVal) :=
  match cells with
  | .list xs => [(PyKey.str "h", PyVal.list xs)]
  | .dict m => m
  | _ => []

/-- The heights column `cells.get("h", [])` as `enumerate` iterates it:
a list element-wise, a string by its one-character substrings, a dict by
its keys; `None`, booleans and numbers are not iterable, so there
`enumerate` raises an uncaught `TypeError` and no cell note is
produced. -/
def heightsOf (cells : PyVal) : List PyVal :=
  match pyDictGet (kvsOf cells) (.str "h") (PyVal.list []) with
  | .list hs => hs
  | .str s => s.data.map (fun c => PyVal.str (String.mk [c]))
  | .dict kvs => kvs.map (fun kv =>
      match kv.1 with
      | .int n => PyVal.int n
      | .str k => PyVal.str k)
  | _ => []

/-- The note for one cell id and its height (source lines 281-317): every
other field comes from the same-named column through `_get_list_item` and
`_safe_cast` with the defaults of the source. -/
def mkCellNote (vault : String) (kvs : List (PyKey × PyVal)) (cid : Nat) (elev : PyVal) :
    CellNote :=
  let col := fun (k : String) => pyDictGet kvs (.str k) (PyVal.list [])
  let geti := fun (k : String) => safeCastInt (_get_list_item (col k) cid (PyVal.int 0)) 0
  let fm : CellFM :=
    { cell_id := cid
      x := safeCastFloat (_get_list_item (col "x") cid (PyVal.int 0)) 0
      y := safeCastFloat (_get_list_item (col "y") cid (PyVal.int 0)) 0
      elevation := safeCastInt elev 0
      feature := geti "f"
      biome := geti "biome"
      burg := geti "burg"
      culture := geti "culture"
      state := geti "state"
      province := geti "province"
      religion := geti "religion"
      population := safeCastFloat (_get_list_item (col "pop") cid (PyVal.float 0)) 0
      river := geti "r"
      flux := geti "fl"
      harbor_score := geti "harbor"
      routes :=
        match pyDictGet kvs (.str "routes") (PyVal.dict []) with
        | .dict rkvs => pyDictGet rkvs (.int cid) (PyVal.dict [])
        | .list rs => _get_list_item (PyVal.list rs) cid (PyVal.dict [])
        | _ => PyVal.dict [] }
  let body :=
    "# Cell " ++ toString fm.cell_id ++ "\n" ++
    "Links → [[Features/Feature-" ++ toString fm.feature ++ "]], " ++
    "[[Cultures/Culture-" ++ toString fm.culture ++ "]], [[States/State-" ++
    toString fm.state ++ "]], " ++
    "[[Provinces/Province-" ++ toString fm.province ++ "]], [[Religions/Religion-" ++
    toString fm.religion ++ "]], " ++
    "[[Rivers/River-" ++ toString fm.river ++ "]], [[Burgs/Burg-" ++
    toString fm.burg ++ "]]"
  { path := vault ++ "/Cells/" ++ ("Cell-" ++ toString cid ++ ".md")
    fm := fm
    body := body }

/-- `process_cells` (source lines 273-317): one note per entry of the
heights column, by enumeration index. -/
def process_cells (vault : String) (cells : PyVal) : List CellNote :=
  (heightsOf cells).enum.map (fun p => mkCellNote vault (kvsOf cells) p.1 p.2)

/-- Counterexample to C7 as stated: a river with id 1 named `Nile` is
written to `Rivers/River-1-Nile.md` — the river filename carries the
safe-name component, it is not `River-1.md`. -/
theorem river_filename_carries_name :
    (process_rivers "World" [RiverEntry.record { i := some 1, name := some "Nile" }]).map
        RiverNote.path = ["World/Rivers/River-1-Nile.md"] ∧
    ("World/Rivers/River-1-Nile.md" : String) ≠ "World/Rivers/River-1.md" := by
  decide

/-- C7 as amended.  Cell filenames contain only the kind and the numeric id
(`Cell-<cid>.md`), while river filenames — like the other named kinds —
are `River-<id>-<safe_name(name)>.md` with a name component. -/
theorem rivers_named_cells_unnamed (vault : String) (rivers : List RiverEntry)
    (cells : PyVal) :
    (∀ n ∈ process_rivers vault rivers, ∃ (i : Int) (nm : String),
      n.path = vault ++ "/Rivers/" ++
        ("River-" ++ toString i ++ "-" ++ safe_filename nm ++ ".md")) ∧
    (process_cells vault cells).map CellNote.path =
      (List.range (heightsOf cells).length).map
        (fun cid => vault ++ "/Cells/" ++ ("Cell-" ++ toString cid ++ ".md")) := by
  constructor
  · intro n hn
    rcases List.mem_filterMap.1 hn with ⟨entry, _, he⟩
    cases entry with
    | bad txt => simp [riverNoteOf] at he
    | record r =>
      refine ⟨r.i.getD 0, r.name.getD "", ?_⟩
      simp only [riverNoteOf, Option.some_inj] at he
      rw [← he]
      rfl
  · show ((heightsOf cells).enum.map fun p => mkCellNote vault (kvsOf cells) p.1 p.2).map
        CellNote.path = _
    rw [List.map_map]
    have hcomp : (CellNote.path ∘ fun p : Nat × PyVal => mkCellNote vault (kvsOf cells) p.1 p.2)
        = (fun cid => vault ++ "/Cells/" ++ ("Cell-" ++ toString cid ++ ".md")) ∘ Prod.fst := by
      funext p
      rfl
    rw [hcomp, ← List.map_map, List.enum_map_fst]

/-- Witness for C7: the Nile river note and a two-cell bare-heights
table. -/
theorem rivers_named_cells_unnamed_witness :
    (∃ (i : Int) (nm : String),
      (mkRiverNote "World" { i := some 1, name := some "Nile" }).path =
        "World" ++ "/Rivers/" ++ ("River-" ++ toString i ++ "-" ++ safe_filename nm ++ ".md")) ∧
    (process_cells "World" (PyVal.list [PyVal.int 3, PyVal.int 4])).map CellNote.path =
      (List.range (heightsOf (PyVal.list [PyVal.int 3, PyVal.int 4])).length).map
        (fun cid => "World" ++ "/Cells/" ++ ("Cell-" ++ toString cid ++ ".md")) :=
  ⟨(rivers_named_cells_unnamed "World"
      [RiverEntry.record { i := some 1, name := some "Nile" }] (PyVal.list [])).1
      (mkRiverNote "World" { i := some 1, name := some "Nile" })
      (List.mem_filterMap.2 ⟨RiverEntry.record { i := some 1, name := some "Nile" },
        List.mem_cons_self _ _, rfl⟩),
   (rivers_named_cells_unnamed "World" []
      (PyVal.list [PyVal.int 3, PyVal.int 4])).2⟩

end FmgObsidian
